import Mathlib

/-!
Verification of the ynab-importer core against its specification.

Shallow embedding of `app/parsers/op_bank.py`, `app/rules/engine.py` and
`app/rules/analyzer.py`.  Python floats are modelled as exact rationals
(`ℚ`); Python strings as Lean `String`/`List Char`.  Standard-library
behaviour used by the code (str.strip, float(), datetime validation,
re.search, hashlib.md5) is modelled by executable Lean functions that
follow the documented CPython behaviour on the inputs the program
produces (ASCII case folding; decimal float literals without
inf/nan/underscores).
-/

set_option allowUnsafeReducibility true

set_option maxRecDepth 1000000

attribute [semireducible] Rat.add Rat.sub Rat.mul Rat.inv Rat.ofScientific

namespace YnabImporter

/-- Whitespace set used by Python `str.strip()` (the common members). -/
def pyIsSpace (c : Char) : Bool :=
  c = ' ' || c = '\t' || c = '\n' || c = '\r' ||
  c = Char.ofNat 11 || c = Char.ofNat 12 || c = Char.ofNat 160

/-- Python `s.strip()`: drop leading and trailing whitespace. -/
def pyStrip (s : String) : String :=
  ⟨((s.data.dropWhile pyIsSpace).reverse.dropWhile pyIsSpace).reverse⟩

/-- Python `s.upper()` (ASCII fold, matching the program's ASCII rule data). -/
def pyUpper (s : String) : String :=
  ⟨s.data.map Char.toUpper⟩

/-- Substring search on character lists, Python's `needle in hay`. -/
def listHasSub (hay needle : List Char) : Bool :=
  needle.isPrefixOf hay ||
    match hay with
    | [] => false
    | _ :: t => listHasSub t needle

/-- Python `needle in hay` for strings. -/
def pyInStr (needle hay : String) : Bool :=
  listHasSub hay.data needle.data

/-- Python truthiness of an optional string (`None` and `""` are falsy). -/
def pyTruthyStr : Option String → Bool
  | none => false
  | some s => s ≠ ""

/-- Numeric value of a decimal digit character. -/
def digitVal (c : Char) : Nat := c.toNat - 48

/-- Decimal digit character for a value below 10. -/
def digitChar (n : Nat) : Char := Char.ofNat (48 + n)

/-! ## Date parsing (`OPBankParser._parse_finnish_date`)

The source uses `re.match` (anchored at the start only, not the end) with
`(\d\x7b1,2\x7d)\.(\d\x7b1,2\x7d)\.(\d\x7b4\x7d)` and with
`(\d\x7b4\x7d)-(\d\x7b2\x7d)-(\d\x7b2\x7d)`.  The functions below
implement exactly those prefix matches, including the backtracking of the
one-or-two-digit group. -/

/-- Match a one-or-two digit group followed by a literal dot, at the head
of the character list, with the regex's greedy-then-backtrack semantics.
Returns the numeric value and the remaining characters. -/
def takeNumDot : List Char → Option (Nat × List Char)
  | c1 :: c2 :: c3 :: rest =>
    if c1.isDigit then
      if c2.isDigit then
        if c3 = '.' then some (digitVal c1 * 10 + digitVal c2, rest) else none
      else if c2 = '.' then some (digitVal c1, c3 :: rest) else none
    else none
  | [c1, c2] => if c1.isDigit && c2 = '.' then some (digitVal c1, []) else none
  | _ => none

/-- Match exactly four digits at the head of the list. -/
def take4Digits : List Char → Option (Nat × List Char)
  | a :: b :: c :: d :: rest =>
    if a.isDigit && b.isDigit && c.isDigit && d.isDigit then
      some (((digitVal a * 10 + digitVal b) * 10 + digitVal c) * 10 + digitVal d, rest)
    else none
  | _ => none

/-- Match exactly two digits at the head of the list. -/
def take2Digits : List Char → Option (Nat × List Char)
  | a :: b :: rest =>
    if a.isDigit && b.isDigit then some (digitVal a * 10 + digitVal b, rest) else none
  | _ => none

/-- Prefix match of the Finnish date pattern, returning (day, month, year). -/
def matchFinnishDate (cs : List Char) : Option (Nat × Nat × Nat) :=
  match takeNumDot cs with
  | some (d, cs1) =>
    match takeNumDot cs1 with
    | some (m, cs2) =>
      match take4Digits cs2 with
      | some (y, _) => some (d, m, y)
      | none => none
    | none => none
  | none => none

/-- Prefix match of the ISO date pattern `YYYY-MM-DD`. -/
def matchIsoShape (cs : List Char) : Bool :=
  match take4Digits cs with
  | some (_, '-' :: r1) =>
    match take2Digits r1 with
    | some (_, '-' :: r2) => (take2Digits r2).isSome
    | _ => false
  | _ => false

/-- Gregorian leap-year test, as in `datetime`. -/
def isLeapYear (y : Nat) : Bool :=
  (y % 4 = 0 && y % 100 ≠ 0) || y % 400 = 0

/-- Days in a month, as in `datetime`. -/
def daysInMonth (y m : Nat) : Nat :=
  if m = 2 then (if isLeapYear y then 29 else 28)
  else if m = 4 || m = 6 || m = 9 || m = 11 then 30
  else 31

/-- Whether `datetime(year, month, day)` succeeds (CPython accepts years
1..9999). -/
def validDate (y m d : Nat) : Bool :=
  1 ≤ y && y ≤ 9999 && 1 ≤ m && m ≤ 12 && 1 ≤ d && d ≤ daysInMonth y m

/-- Two-digit zero-padded rendering (strftime `%m`, `%d`). -/
def render2 (n : Nat) : List Char := [digitChar (n / 10), digitChar (n % 10)]

/-- Four-digit zero-padded rendering (strftime `%Y`). -/
def render4 (n : Nat) : List Char :=
  [digitChar (n / 1000), digitChar (n / 100 % 10), digitChar (n / 10 % 10), digitChar (n % 10)]

/-- `dt.strftime("%Y-%m-%d")`. -/
def isoString (y m d : Nat) : String :=
  ⟨render4 y ++ '-' :: render2 m ++ '-' :: render2 d⟩

/-- `OPBankParser._parse_finnish_date`. -/
def parseFinnishDate (dateStr : String) : Option String :=
  let s := pyStrip dateStr
  match matchFinnishDate s.data with
  | some (d, m, y) => if validDate y m d then some (isoString y m d) else none
  | none => if matchIsoShape s.data then some s else none

/-! ## Amount parsing (`OPBankParser._parse_finnish_amount`) -/

/-- Digit list to natural number. -/
def digitsToNat (ds : List Char) : Nat :=
  ds.foldl (fun a c => a * 10 + digitVal c) 0

/-- Model of Python `float(str)` restricted to finite decimal literals:
optional sign, digits with optional fraction, optional exponent
(inf/nan and digit-group underscores are not modelled; the parser never
produces them).  Returns `none` exactly when `float` raises `ValueError`
on such inputs. -/
def pyFloat (cs0 : List Char) : Option ℚ :=
  let cs1 := ((cs0.dropWhile pyIsSpace).reverse.dropWhile pyIsSpace).reverse
  let sgncs : ℤ × List Char :=
    match cs1 with
    | '+' :: t => (1, t)
    | '-' :: t => (-1, t)
    | t => (1, t)
  let ipRest := sgncs.2.span (·.isDigit)
  let fpRest : List Char × List Char :=
    match ipRest.2 with
    | '.' :: t => t.span (·.isDigit)
    | t => ([], t)
  if ipRest.1 = [] && fpRest.1 = [] then none
  else
    let mant : ℤ := (digitsToNat ipRest.1 * 10 ^ fpRest.1.length + digitsToNat fpRest.1 : ℕ)
    match fpRest.2 with
    | [] => some (mkRat (sgncs.1 * mant) (10 ^ fpRest.1.length))
    | e :: t =>
      if e = 'e' || e = 'E' then
        let esgn : Bool × List Char :=
          match t with
          | '+' :: t2 => (true, t2)
          | '-' :: t2 => (false, t2)
          | t2 => (true, t2)
        let edRest := esgn.2.span (·.isDigit)
        if edRest.1 = [] || edRest.2 ≠ [] then none
        else
          let ev := digitsToNat edRest.1
          if esgn.1 then some (mkRat (sgncs.1 * mant * 10 ^ ev) (10 ^ fpRest.1.length))
          else some (mkRat (sgncs.1 * mant) (10 ^ fpRest.1.length * 10 ^ ev))
      else none

/-- The string-cleaning pipeline of `_parse_finnish_amount`: strip, remove
spaces and non-breaking spaces, drop periods when both separators are
present, then turn commas into periods. -/
def cleanAmount (s : String) : List Char :=
  let s1 := (pyStrip s).data
  let s2 := s1.filter (fun c => c ≠ ' ' && c ≠ Char.ofNat 160)
  let s3 := if s2.contains ',' && s2.contains '.' then s2.filter (fun c => c ≠ '.') else s2
  s3.map (fun c => if c = ',' then '.' else c)

/-- `OPBankParser._parse_finnish_amount`. -/
def parseFinnishAmount (amountStr : String) : ℚ :=
  if amountStr = "" then 0
  else
    match pyFloat (cleanAmount amountStr) with
    | some q => q
    | none => 0

/-! ## MD5 (model of `hashlib.md5(...).hexdigest()`)

A direct implementation of RFC 1321 over byte lists, with 32-bit words
as naturals reduced modulo `2 ^ 32`.  Only its determinism and its
32-hex-character output shape matter to the claims. -/

/-- UTF-8 encoding of one character (`str.encode()`). -/
def utf8Char (c : Char) : List Nat :=
  let n := c.toNat
  if n < 128 then [n]
  else if n < 2048 then [192 + n / 64, 128 + n % 64]
  else if n < 65536 then [224 + n / 4096, 128 + n / 64 % 64, 128 + n % 64]
  else [240 + n / 262144, 128 + n / 4096 % 64, 128 + n / 64 % 64, 128 + n % 64]

/-- UTF-8 bytes of a string (`str.encode()`). -/
def utf8Bytes (s : String) : List Nat := s.data.flatMap utf8Char

/-- Reduce to a 32-bit word. -/
def u32 (n : Nat) : Nat := n % 4294967296

/-- 32-bit addition. -/
def add32 (a b : Nat) : Nat := (a + b) % 4294967296

/-- 32-bit left rotation (argument below `2 ^ 32`, amount below 32). -/
def rotl32 (x s : Nat) : Nat := ((x <<< s) ||| (x >>> (32 - s))) % 4294967296

/-- 32-bit bitwise complement. -/
def not32 (x : Nat) : Nat := 4294967295 - x

/-- The MD5 sine-derived round constants. -/
def md5K : List Nat :=
  [0xd76aa478, 0xe8c7b756, 0x242070db, 0xc1bdceee,
   0xf57c0faf, 0x4787c62a, 0xa8304613, 0xfd469501,
   0x698098d8, 0x8b44f7af, 0xffff5bb1, 0x895cd7be,
   0x6b901122, 0xfd987193, 0xa679438e, 0x49b40821,
   0xf61e2562, 0xc040b340, 0x265e5a51, 0xe9b6c7aa,
   0xd62f105d, 0x02441453, 0xd8a1e681, 0xe7d3fbc8,
   0x21e1cde6, 0xc33707d6, 0xf4d50d87, 0x455a14ed,
   0xa9e3e905, 0xfcefa3f8, 0x676f02d9, 0x8d2a4c8a,
   0xfffa3942, 0x8771f681, 0x6d9d6122, 0xfde5380c,
   0xa4beea44, 0x4bdecfa9, 0xf6bb4b60, 0xbebfbc70,
   0x289b7ec6, 0xeaa127fa, 0xd4ef3085, 0x04881d05,
   0xd9d4d039, 0xe6db99e5, 0x1fa27cf8, 0xc4ac5665,
   0xf4292244, 0x432aff97, 0xab9423a7, 0xfc93a039,
   0x655b59c3, 0x8f0ccc92, 0xffeff47d, 0x85845dd1,
   0x6fa87e4f, 0xfe2ce6e0, 0xa3014314, 0x4e0811a1,
   0xf7537e82, 0xbd3af235, 0x2ad7d2bb, 0xeb86d391]

/-- The MD5 per-round rotation amounts. -/
def md5S : List Nat :=
  [7, 12, 17, 22, 7, 12, 17, 22, 7, 12, 17, 22, 7, 12, 17, 22,
   5, 9, 14, 20, 5, 9, 14, 20, 5, 9, 14, 20, 5, 9, 14, 20,
   4, 11, 16, 23, 4, 11, 16, 23, 4, 11, 16, 23, 4, 11, 16, 23,
   6, 10, 15, 21, 6, 10, 15, 21, 6, 10, 15, 21, 6, 10, 15, 21]

/-- The MD5 nonlinear function for round `i`. -/
def md5F (i b c d : Nat) : Nat :=
  if i < 16 then (b &&& c) ||| (not32 b &&& d)
  else if i < 32 then (d &&& b) ||| (not32 d &&& c)
  else if i < 48 then b ^^^ c ^^^ d
  else c ^^^ (b ||| not32 d)

/-- The MD5 message-word index for round `i`. -/
def md5G (i : Nat) : Nat :=
  if i < 16 then i
  else if i < 32 then (5 * i + 1) % 16
  else if i < 48 then (3 * i + 5) % 16
  else (7 * i) % 16

/-- One MD5 round applied to the state `(a, b, c, d)`. -/
def md5Step (m : List Nat) (st : Nat × Nat × Nat × Nat) (i : Nat) :
    Nat × Nat × Nat × Nat :=
  match st with
  | (a, b, c, d) =>
    let f := add32 (add32 (md5F i b c d) a) (add32 (md5K.getD i 0) (m.getD (md5G i) 0))
    (d, add32 b (rotl32 f (md5S.getD i 0)), b, c)

/-- Little-endian bytes of a 32-bit word. -/
def le4 (x : Nat) : List Nat :=
  [x % 256, x / 256 % 256, x / 65536 % 256, x / 16777216 % 256]

/-- Group little-endian bytes into 32-bit words. -/
def bytesToWords : List Nat → List Nat
  | b0 :: b1 :: b2 :: b3 :: rest =>
    (b0 + 256 * b1 + 65536 * b2 + 16777216 * b3) :: bytesToWords rest
  | _ => []

/-- Process one padded 64-byte block. -/
def md5Block (st : Nat × Nat × Nat × Nat) (block : List Nat) :
    Nat × Nat × Nat × Nat :=
  let m := bytesToWords block
  let r := (List.range 64).foldl (md5Step m) st
  match st, r with
  | (a0, b0, c0, d0), (a, b, c, d) => (add32 a0 a, add32 b0 b, add32 c0 c, add32 d0 d)

/-- MD5 padding: `0x80`, zeros to 56 mod 64, then the 64-bit bit length. -/
def md5Pad (msg : List Nat) : List Nat :=
  let bitlen := 8 * msg.length
  let zeros := (56 + 64 - (msg.length + 1) % 64) % 64
  msg ++ 128 :: List.replicate zeros 0 ++
    (le4 (bitlen % 4294967296) ++ le4 (bitlen / 4294967296 % 4294967296))

/-- Split a byte list into 64-byte chunks (fuel-based structural
recursion; the fuel `l.length` always suffices). -/
def chunks64Aux : Nat → List Nat → List (List Nat)
  | 0, _ => []
  | _, [] => []
  | fuel + 1, x :: xs => (x :: xs.take 63) :: chunks64Aux fuel (xs.drop 63)

/-- Split a byte list into 64-byte chunks. -/
def chunks64 (l : List Nat) : List (List Nat) := chunks64Aux l.length l

/-- The 16-byte MD5 digest of a byte list. -/
def md5Bytes (msg : List Nat) : List Nat :=
  let blocks := chunks64 (md5Pad msg)
  let r := blocks.foldl md5Block (0x67452301, 0xefcdab89, 0x98badcfe, 0x10325476)
  match r with
  | (a, b, c, d) => le4 a ++ le4 b ++ le4 c ++ le4 d

/-- Lowercase hex digit. -/
def hexDigit (n : Nat) : Char :=
  if n < 10 then digitChar n else Char.ofNat (87 + n)

/-- Two lowercase hex digits of a byte. -/
def byteHex (b : Nat) : List Char := [hexDigit (b / 16), hexDigit (b % 16)]

/-- `hashlib.md5(s.encode()).hexdigest()` as a character list. -/
def md5HexChars (s : String) : List Char := (md5Bytes (utf8Bytes s)).flatMap byteHex

/-- `hashlib.md5(s.encode()).hexdigest()`. -/
def md5Hex (s : String) : String := ⟨md5HexChars s⟩

/-! ## import-id generation (`OPBankParser._generate_import_id`) -/

/-- Python slicing `s[:n]`. -/
def strTake (n : Nat) (s : String) : String := ⟨s.data.take n⟩

/-- Python `int()` truncation toward zero of a rational. -/
def pyInt (q : ℚ) : ℤ := if 0 ≤ q then ⌊q⌋ else ⌈q⌉

/-- `int(amount * 1000)`. -/
def milliunits (amount : ℚ) : ℤ := pyInt (amount * 1000)

/-- Decimal digits of a natural number, most significant first. -/
def natDigitsAux : Nat → Nat → List Char
  | 0, _ => []
  | fuel + 1, n => if n < 10 then [digitChar n] else natDigitsAux fuel (n / 10) ++ [digitChar (n % 10)]

/-- Decimal rendering of a natural number. -/
def natDigits (n : Nat) : List Char := natDigitsAux (n + 1) n

/-- Decimal digits of the fractional part of a rational in `[0, 1)`,
bounded by the given fuel. -/
def fracDigitsAux : Nat → ℚ → List Char
  | 0, _ => []
  | fuel + 1, r =>
    if r = 0 then []
    else
      let r10 := r * 10
      let d := ⌊r10⌋
      digitChar d.toNat :: fracDigitsAux fuel (r10 - (d : ℚ))

/-- Model of Python `str(float)` for amounts in the plain-decimal range:
sign, integer part, a dot, and the fractional digits (`"0"` when the
value is integral).  Exact for the decimal-fraction values produced by
the amount parser; scientific-style reprs are outside the model. -/
def pyFloatStr (q : ℚ) : String :=
  let sgn : List Char := if q < 0 then ['-'] else []
  let a := |q|
  let ip := (⌊a⌋).toNat
  let fd := fracDigitsAux 30 (a - (ip : ℚ))
  ⟨sgn ++ natDigits ip ++ '.' :: (if fd = [] then ['0'] else fd)⟩

/-- The hash-based branch of `_generate_import_id`. -/
def hashImportId (date payee : String) (amount : ℚ) : String :=
  let uniqueStr := date ++ ":" ++ payee ++ ":" ++ pyFloatStr amount
  "YNAB:" ++ toString (milliunits amount) ++ ":" ++ date ++ ":" ++
    strTake 8 (md5Hex uniqueStr)

/-- `OPBankParser._generate_import_id`.  Note the Python truthiness test
`if archive_id:`: an empty string takes the hash branch. -/
def generateImportId (date payee : String) (amount : ℚ)
    (archiveId : Option String) : String :=
  match archiveId with
  | some s => if s = "" then hashImportId date payee amount else "OP:" ++ s
  | none => hashImportId date payee amount

/-! ## Row parsing (`OPBankParser._parse_row` and the `parse` loop)

A CSV row after `DictReader` and header normalisation is a list of
(field, value) pairs, where a value may be Python `None` (`Option.none`).
Python-level exceptions inside `_parse_row` (e.g. `.strip()` on `None`)
are modelled with `Except`; the `parse` loop catches them and skips the
row.  The `csv` tokenisation itself is upstream of the claims and not
modelled. -/

/-- A parsed transaction (`op_bank.Transaction`). -/
structure Transaction where
  date : String
  payee : String
  amount : ℚ
  memo : Option String
  import_id : String
  original_date : String
  original_amount : Option String
  reference : Option String
  archive_id : Option String
deriving Repr, DecidableEq

/-- A normalised CSV row. -/
abbrev Row := List (String × Option String)

/-- Python `row.get(key, default)`. -/
def rowGet (row : Row) (key : String) (dflt : Option String) : Option String :=
  match row.lookup key with
  | some v => v
  | none => dflt

/-- `value.strip()`, raising `AttributeError` when the value is `None`. -/
def pyStripOpt : Option String → Except String String
  | some s => .ok (pyStrip s)
  | none => .error "AttributeError"

/-- Python `" | ".join`. -/
def joinSep (sep : String) : List String → String
  | [] => ""
  | [x] => x
  | x :: y :: xs => x ++ sep ++ joinSep sep (y :: xs)

/-- `OPBankParser._parse_row`: `Except.error` models an uncaught Python
exception inside the row, `.ok none` the explicit `return None` for a
missing or unparsable date. -/
def parseRow (row : Row) : Except String (Option Transaction) :=
  let booking := rowGet row "booking_date" none
  let dateStr := if pyTruthyStr booking then booking else rowGet row "value_date" (some "")
  if pyTruthyStr dateStr = false then .ok none
  else
    let ds := dateStr.getD ""
    match parseFinnishDate ds with
    | none => .ok none
    | some date =>
      let amountStr := rowGet row "amount" (some "0")
      let amount := match amountStr with
        | some s => parseFinnishAmount s
        | none => 0
      match pyStripOpt (rowGet row "payee" (some "")) with
      | .error e => .error e
      | .ok p0 =>
        let payeeRes := if p0 = "" then pyStripOpt (rowGet row "explanation" (some "Unknown")) else .ok p0
        match payeeRes with
        | .error e => .error e
        | .ok payee =>
          let explanation := rowGet row "explanation" none
          let message := rowGet row "message" none
          let memoParts :=
            (if pyTruthyStr explanation then [pyStrip (explanation.getD "")] else []) ++
            (if pyTruthyStr message then [pyStrip (message.getD "")] else [])
          let memoJoined := joinSep " | " (memoParts.filter (· ≠ ""))
          let memo := if memoJoined = "" then none else some memoJoined
          let archiveId := rowGet row "archive_id" none
          .ok (some
            { date := date
              payee := payee
              amount := amount
              memo := memo
              import_id := generateImportId date payee amount archiveId
              original_date := ds
              original_amount := amountStr
              reference := rowGet row "reference" none
              archive_id := archiveId })

/-- The row loop of `OPBankParser.parse`: failed rows are skipped, the
rest are kept in order. -/
def parseRows : List Row → List Transaction
  | [] => []
  | r :: rest =>
    match parseRow r with
    | .ok (some t) => t :: parseRows rest
    | _ => parseRows rest

/-! ## Regular expressions (model of `re.compile` / `re.search`)

`RulesEngine._rule_matches` calls `re.search(pattern, text, re.IGNORECASE)`
inside `try/except re.error`.  The model below parses a core of Python's
regex syntax into an AST — literals; escapes including `\\a \\f \\n \\r \\t \\v`,
`\\xHH`, `\\uHHHH`, octal escapes, the classes `\\d \\D \\w \\W \\s \\S`, the
anchors `\\b \\B \\A \\Z`; bracket classes with negation, ranges and leading-`]`
literals; plain, non-capturing and `(?P<name>...)` groups; numeric
backreferences; alternation; `.` `^` `$`; and the `*` `+` `?` and brace
quantifiers with optional lazy or possessive markers.  Compilation is
three-valued:
`.ok` with the AST, `.bad` exactly for the situations in which CPython's
`re.compile` raises `re.error` on this core (unbalanced brackets,
dangling or stacked quantifiers, quantified anchors, bad escapes,
reversed ranges or bounds, references to undefined or open groups,
duplicate group names, out-of-range octal values), and `.outside` for
syntax beyond the modelled core (lookarounds, flags, conditionals,
`(?P=name)`, `\\N\x7b...\x7d`), which the model deliberately leaves
unclassified — no claim quantifies over such patterns, and the engine
model skips the predicate for them.  Matching is a fuel-bounded
backtracking search with case folding and capture tracking;
greedy/lazy distinctions do not affect the boolean result the engine
consumes. -/

/-- Three-valued outcome of the regex model: `.bad` models a raised
`re.error`, `.outside` marks syntax outside the modelled core. -/
inductive PRes (α : Type) where
  | ok (a : α)
  | bad
  | outside
deriving Repr, DecidableEq

/-- One member of a character class. -/
inductive CItem where
  | single (c : Char)
  | crange (a b : Char)
  | perD
  | perW
  | perS
  | perND
  | perNW
  | perNS
deriving Repr, DecidableEq

/-- Regex abstract syntax. -/
inductive RE where
  | eps
  | lit (c : Char)
  | anyc
  | cclass (neg : Bool) (items : List CItem)
  | startAnchor
  | endAnchor
  | wbR
  | nwbR
  | bosR
  | eosR
  | groupR (idx : Nat) (a : RE)
  | backrefR (idx : Nat)
  | seqR (a b : RE)
  | altR (a b : RE)
  | star (a : RE)
  | plus (a : RE)
  | opt (a : RE)
  | repR (a : RE) (lo : Nat) (hi : Option Nat)
  | possR (a : RE)
deriving Repr, DecidableEq

/-- Parser context: groups opened so far (numbering), groups already
closed (referable), and used group names. -/
structure PCtx where
  opened : Nat := 0
  closed : List Nat := []
  names : List String := []
deriving Repr, DecidableEq

/-- Octal digit test. -/
def isOctDigit (c : Char) : Bool := '0' ≤ c && c ≤ '7'

/-- Hex digit test. -/
def isHexDigit (c : Char) : Bool :=
  c.isDigit || ('a' ≤ c && c ≤ 'f') || ('A' ≤ c && c ≤ 'F')

/-- Value of a hex digit. -/
def hexVal (c : Char) : Nat :=
  if c.isDigit then digitVal c
  else if 'a' ≤ c && c ≤ 'f' then c.toNat - 87
  else c.toNat - 55

/-- Value of a list of octal digits. -/
def octValOf (ds : List Char) : Nat := ds.foldl (fun a c => a * 8 + digitVal c) 0

/-- Take up to `n` octal digits. -/
def takeOctN : Nat → List Char → List Char × List Char
  | 0, cs => ([], cs)
  | _ + 1, [] => ([], [])
  | n + 1, c :: rest =>
    if isOctDigit c then
      let p := takeOctN n rest
      (c :: p.1, p.2)
    else ([], c :: rest)

/-- Literal value of a plain escape `\\c` (CPython's ESCAPES);
`none` when `c` is alphanumeric and not otherwise special (Python then
raises `bad escape`). -/
def escLitChar (c : Char) : Option Char :=
  if c = 'a' then some (Char.ofNat 7)
  else if c = 'f' then some (Char.ofNat 12)
  else if c = 'n' then some '\n'
  else if c = 'r' then some '\r'
  else if c = 't' then some '\t'
  else if c = 'v' then some (Char.ofNat 11)
  else if c.isAlphanum then none
  else some c

/-- `\\xHH`: exactly two hex digits (otherwise `re.error`). -/
def readHexEsc : List Char → PRes (Char × List Char)
  | h1 :: h2 :: rest =>
    if isHexDigit h1 && isHexDigit h2 then
      .ok (Char.ofNat (16 * hexVal h1 + hexVal h2), rest)
    else .bad
  | _ => .bad

/-- `\\uHHHH`: exactly four hex digits.  Lone-surrogate escapes are
valid CPython patterns but not representable as a Lean `Char`, so they
are classified `.outside` the modelled core. -/
def readUniEsc : List Char → PRes (Char × List Char)
  | h1 :: h2 :: h3 :: h4 :: rest =>
    if isHexDigit h1 && isHexDigit h2 && isHexDigit h3 && isHexDigit h4 then
      let v := 4096 * hexVal h1 + 256 * hexVal h2 + 16 * hexVal h3 + hexVal h4
      if 55296 ≤ v && v < 57344 then .outside else .ok (Char.ofNat v, rest)
    else .bad
  | _ => .bad

/-- One class member (before range handling), after CPython's
`_class_escape`: digit escapes are octal there (`\\8`/`\\9` are errors),
`\\b` is backspace, and the unknown-alphanumeric escapes are errors. -/
def classAtom : List Char → PRes (CItem × List Char)
  | '\\' :: rest =>
    (match rest with
     | [] => .bad
     | c :: r =>
       if c = 'd' then .ok (.perD, r)
       else if c = 'D' then .ok (.perND, r)
       else if c = 'w' then .ok (.perW, r)
       else if c = 'W' then .ok (.perNW, r)
       else if c = 's' then .ok (.perS, r)
       else if c = 'S' then .ok (.perNS, r)
       else if c = 'b' then .ok (.single (Char.ofNat 8), r)
       else if c = 'N' then .outside
       else if c = 'x' then
         match readHexEsc r with
         | .ok p => .ok (.single p.1, p.2)
         | .bad => .bad
         | .outside => .outside
       else if c = 'u' then
         match readUniEsc r with
         | .ok p => .ok (.single p.1, p.2)
         | .bad => .bad
         | .outside => .outside
       else if isOctDigit c then
         let p := takeOctN 2 r
         let v := octValOf (c :: p.1)
         if v ≤ 255 then .ok (.single (Char.ofNat v), p.2) else .bad
       else if c.isDigit then .bad
       else
         match escLitChar c with
         | some lc => .ok (.single lc, r)
         | none => .bad)
  | c :: rest => .ok (.single c, rest)
  | [] => .bad

/-- Body of a character class up to and including the closing `]`
(a leading literal `]` is handled by the caller); `.bad` on the
`re.error` situations: unterminated class, bad escape, reversed or
ill-typed range. -/
def parseClassBody : Nat → List Char → PRes (List CItem × List Char)
  | 0, _ => .bad
  | _ + 1, [] => .bad
  | _ + 1, ']' :: rest => .ok ([], rest)
  | fuel + 1, cs =>
    match classAtom cs with
    | .bad => .bad
    | .outside => .outside
    | .ok (it, rest) =>
      match it, rest with
      | .single a, '-' :: ']' :: r3 =>
        match parseClassBody fuel (']' :: r3) with
        | .ok (items, r4) => .ok (.single a :: .single '-' :: items, r4)
        | .bad => .bad
        | .outside => .outside
      | .single a, '-' :: r2 =>
        match classAtom r2 with
        | .bad => .bad
        | .outside => .outside
        | .ok (.single b, r3) =>
          if a ≤ b then
            match parseClassBody fuel r3 with
            | .ok (items, r4) => .ok (.crange a b :: items, r4)
            | .bad => .bad
            | .outside => .outside
          else .bad
        | .ok (_, _) => .bad
      | _, _ =>
        match parseClassBody fuel rest with
        | .ok (items, r4) => .ok (it :: items, r4)
        | .bad => .bad
        | .outside => .outside

/-- Brace-quantifier bounds after `\x7b`; `none` when the braces are not a
quantifier (Python then treats `\x7b` as a literal). -/
def parseRepBounds (cs : List Char) : Option (Nat × Option Nat × List Char) :=
  let d1 := cs.span (·.isDigit)
  match d1.2 with
  | '\x7d' :: r2 =>
    if d1.1 = [] then none else some (digitsToNat d1.1, some (digitsToNat d1.1), r2)
  | ',' :: r2 =>
    let d2 := r2.span (·.isDigit)
    match d2.2 with
    | '\x7d' :: r4 =>
      if d1.1 = [] && d2.1 = [] then none
      else
        some (if d1.1 = [] then 0 else digitsToNat d1.1,
              if d2.1 = [] then none else some (digitsToNat d2.1), r4)
    | _ => none
  | _ => none

/-- Whether a quantifier may follow this atom (CPython rejects
quantified anchors with `nothing to repeat`). -/
def quantifiable : RE → Bool
  | .startAnchor => false
  | .endAnchor => false
  | .wbR => false
  | .nwbR => false
  | .bosR => false
  | .eosR => false
  | _ => true

/-- After a quantifier (and its optional lazy `?`), a further quantifier
is CPython's `multiple repeat` error. -/
def checkNoMoreRepeat (q : RE) (ctx : PCtx) : List Char → PRes (RE × PCtx × List Char)
  | '*' :: _ => .bad
  | '+' :: _ => .bad
  | '?' :: _ => .bad
  | '\x7b' :: r2 =>
    match parseRepBounds r2 with
    | some _ => .bad
    | none => .ok (q, ctx, '\x7b' :: r2)
  | r => .ok (q, ctx, r)

/-- Consume one optional quantifier modifier — lazy `?` (greediness does
not change the boolean search result) or possessive `+` (atomic, no
backtracking; Python 3.11+) — and forbid stacked quantifiers. -/
def lazyOpt (q : RE) (ctx : PCtx) : List Char → PRes (RE × PCtx × List Char)
  | '?' :: rest => checkNoMoreRepeat q ctx rest
  | '+' :: rest => checkNoMoreRepeat (.possR q) ctx rest
  | rest => checkNoMoreRepeat q ctx rest

/-- A group name for `(?P<name>...)`: a nonempty identifier. -/
def validGroupName (nm : List Char) : Bool :=
  match nm with
  | [] => false
  | c0 :: _ => (c0.isAlpha || c0 = '_') && nm.all (fun c => c.isAlphanum || c = '_')

/-- Recursive-descent parser: mode 0 = alternation, 1 = sequence,
2 = atom with quantifier, 3 = bare atom.  Fuel-bounded structural
recursion; `.bad` models `re.error`, `.outside` unmodelled syntax. -/
def reP : Nat → Nat → PCtx → List Char → PRes (RE × PCtx × List Char)
  | 0, _, _, _ => .bad
  | fuel + 1, 0, ctx, cs =>
    match reP fuel 1 ctx cs with
    | .bad => .bad
    | .outside => .outside
    | .ok (r, ctx1, rest) =>
      match rest with
      | '|' :: rest2 =>
        match reP fuel 0 ctx1 rest2 with
        | .bad => .bad
        | .outside => .outside
        | .ok (r2, ctx2, rest3) => .ok (.altR r r2, ctx2, rest3)
      | _ => .ok (r, ctx1, rest)
  | fuel + 1, 1, ctx, cs =>
    match cs with
    | [] => .ok (.eps, ctx, [])
    | ')' :: _ => .ok (.eps, ctx, cs)
    | '|' :: _ => .ok (.eps, ctx, cs)
    | _ =>
      match reP fuel 2 ctx cs with
      | .bad => .bad
      | .outside => .outside
      | .ok (a, ctx1, rest) =>
        match reP fuel 1 ctx1 rest with
        | .bad => .bad
        | .outside => .outside
        | .ok (b, ctx2, rest2) => .ok (.seqR a b, ctx2, rest2)
  | fuel + 1, 2, ctx, cs =>
    match reP fuel 3 ctx cs with
    | .bad => .bad
    | .outside => .outside
    | .ok (a, ctx1, rest) =>
      match rest with
      | '*' :: r => if quantifiable a then lazyOpt (.star a) ctx1 r else .bad
      | '+' :: r => if quantifiable a then lazyOpt (.plus a) ctx1 r else .bad
      | '?' :: r => if quantifiable a then lazyOpt (.opt a) ctx1 r else .bad
      | '\x7b' :: r =>
        match parseRepBounds r with
        | some (lo, hi, r2) =>
          if quantifiable a then
            if (match hi with | some h => decide (lo ≤ h) | none => true) then
              lazyOpt (.repR a lo hi) ctx1 r2
            else .bad
          else .bad
        | none => .ok (a, ctx1, rest)
      | _ => .ok (a, ctx1, rest)
  | fuel + 1, 3, ctx, cs =>
    match cs with
    | [] => .bad
    | '(' :: '?' :: ':' :: rest =>
      match reP fuel 0 ctx rest with
      | .ok (r, ctx1, ')' :: rest2) => .ok (r, ctx1, rest2)
      | .outside => .outside
      | _ => .bad
    | '(' :: '?' :: 'P' :: '<' :: rest =>
      let nameSpan := rest.span (fun c => c ≠ '>')
      (match nameSpan.2 with
       | '>' :: r2 =>
         if !validGroupName nameSpan.1 then .bad
         else if ctx.names.contains ⟨nameSpan.1⟩ then .bad
         else
           let idx := ctx.opened + 1
           match reP fuel 0
               { opened := idx, closed := ctx.closed, names := ctx.names ++ [⟨nameSpan.1⟩] }
               r2 with
           | .ok (r, ctx1, ')' :: rest2) =>
             .ok (.groupR idx r, { ctx1 with closed := ctx1.closed ++ [idx] }, rest2)
           | .outside => .outside
           | _ => .bad
       | _ => .bad)
    | '(' :: '?' :: _ => .outside
    | '(' :: rest =>
      let idx := ctx.opened + 1
      (match reP fuel 0 { ctx with opened := idx } rest with
       | .ok (r, ctx1, ')' :: rest2) =>
         .ok (.groupR idx r, { ctx1 with closed := ctx1.closed ++ [idx] }, rest2)
       | .outside => .outside
       | _ => .bad)
    | ')' :: _ => .bad
    | '[' :: rest =>
      let negRest : Bool × List Char :=
        match rest with
        | '^' :: r => (true, r)
        | r => (false, r)
      let leadRest : Bool × List Char :=
        match negRest.2 with
        | ']' :: r2 => (true, r2)
        | r2 => (false, r2)
      (match parseClassBody (leadRest.2.length + 1) leadRest.2 with
       | .ok (items, rest2) =>
         .ok (.cclass negRest.1 (if leadRest.1 then .single ']' :: items else items),
              ctx, rest2)
       | .bad => .bad
       | .outside => .outside)
    | '.' :: rest => .ok (.anyc, ctx, rest)
    | '^' :: rest => .ok (.startAnchor, ctx, rest)
    | '$' :: rest => .ok (.endAnchor, ctx, rest)
    | '*' :: _ => .bad
    | '+' :: _ => .bad
    | '?' :: _ => .bad
    | '\x7b' :: rest =>
      (match parseRepBounds rest with
       | some _ => .bad
       | none => .ok (.lit '\x7b', ctx, rest))
    | '\\' :: c :: rest =>
      if c = 'd' then .ok (.cclass false [.perD], ctx, rest)
      else if c = 'D' then .ok (.cclass true [.perD], ctx, rest)
      else if c = 'w' then .ok (.cclass false [.perW], ctx, rest)
      else if c = 'W' then .ok (.cclass true [.perW], ctx, rest)
      else if c = 's' then .ok (.cclass false [.perS], ctx, rest)
      else if c = 'S' then .ok (.cclass true [.perS], ctx, rest)
      else if c = 'b' then .ok (.wbR, ctx, rest)
      else if c = 'B' then .ok (.nwbR, ctx, rest)
      else if c = 'A' then .ok (.bosR, ctx, rest)
      else if c = 'Z' then .ok (.eosR, ctx, rest)
      else if c = 'N' then .outside
      else if c = 'x' then
        match readHexEsc rest with
        | .ok p => .ok (.lit p.1, ctx, p.2)
        | .bad => .bad
        | .outside => .outside
      else if c = 'u' then
        match readUniEsc rest with
        | .ok p => .ok (.lit p.1, ctx, p.2)
        | .bad => .bad
        | .outside => .outside
      else if c = '0' then
        let p := takeOctN 2 rest
        .ok (.lit (Char.ofNat (octValOf ('0' :: p.1))), ctx, p.2)
      else if c.isDigit then
        -- CPython `sre_parse._escape`: three octal digits form an octal
        -- escape; otherwise the digits are a group reference, valid only
        -- for an already-closed group.
        match rest with
        | d2 :: r2 =>
          if d2.isDigit then
            match r2 with
            | d3 :: r3 =>
              if isOctDigit c && isOctDigit d2 && isOctDigit d3 then
                let v := octValOf [c, d2, d3]
                if v ≤ 255 then .ok (.lit (Char.ofNat v), ctx, r3) else .bad
              else if ctx.closed.contains (10 * digitVal c + digitVal d2) then
                .ok (.backrefR (10 * digitVal c + digitVal d2), ctx, d3 :: r3)
              else .bad
            | [] =>
              if ctx.closed.contains (10 * digitVal c + digitVal d2) then
                .ok (.backrefR (10 * digitVal c + digitVal d2), ctx, [])
              else .bad
          else if ctx.closed.contains (digitVal c) then
            .ok (.backrefR (digitVal c), ctx, d2 :: r2)
          else .bad
        | [] =>
          if ctx.closed.contains (digitVal c) then .ok (.backrefR (digitVal c), ctx, [])
          else .bad
      else
        match escLitChar c with
        | some lc => .ok (.lit lc, ctx, rest)
        | none => .bad
    | '\\' :: [] => .bad
    | c :: rest => .ok (.lit c, ctx, rest)
  | _ + 1, _, _, _ => .bad

/-- `re.compile(pattern)`: `.bad` models `re.error`. -/
def compileRegex (p : String) : PRes RE :=
  match reP (4 * p.data.length + 8) 0 {} p.data with
  | .ok (r, _, []) => .ok r
  | .ok _ => .bad
  | .bad => .bad
  | .outside => .outside

/-- Lowercasing over ASCII and Latin-1 (covers the Finnish letters the
program's data carries). -/
def latinLower (c : Char) : Char :=
  let n := c.toNat
  if 65 ≤ n && n ≤ 90 then Char.ofNat (n + 32)
  else if 192 ≤ n && n ≤ 222 && n ≠ 215 then Char.ofNat (n + 32)
  else c

/-- Uppercasing over ASCII and Latin-1. -/
def latinUpper (c : Char) : Char :=
  let n := c.toNat
  if 97 ≤ n && n ≤ 122 then Char.ofNat (n - 32)
  else if 224 ≤ n && n ≤ 254 && n ≠ 247 then Char.ofNat (n - 32)
  else c

/-- Case folding used for `re.IGNORECASE` (ASCII and Latin-1). -/
def foldCase (c : Char) : Char := latinLower c

/-- `\\w` membership. -/
def isWordChar (c : Char) : Bool := c.isAlphanum || c = '_'

/-- Match of one class member against a character (case-insensitive). -/
def citemMatch (it : CItem) (c : Char) : Bool :=
  match it with
  | .single x => foldCase x = foldCase c
  | .crange a b =>
    (a ≤ c && c ≤ b) || (a ≤ latinLower c && latinLower c ≤ b) ||
      (a ≤ latinUpper c && latinUpper c ≤ b)
  | .perD => c.isDigit
  | .perND => !c.isDigit
  | .perW => isWordChar c
  | .perNW => !isWordChar c
  | .perS => pyIsSpace c
  | .perNS => !pyIsSpace c

/-- Class match with optional negation. -/
def classMatch (neg : Bool) (items : List CItem) (c : Char) : Bool :=
  let m := items.any (citemMatch · c)
  if neg then !m else m

/-- A crude size measure used only to pick a large-enough matcher fuel. -/
def reSize : RE → Nat
  | .eps => 1
  | .lit _ => 1
  | .anyc => 1
  | .cclass _ items => items.length + 1
  | .startAnchor => 1
  | .endAnchor => 1
  | .wbR => 1
  | .nwbR => 1
  | .bosR => 1
  | .eosR => 1
  | .groupR _ a => reSize a + 2
  | .backrefR _ => 2
  | .seqR a b => reSize a + reSize b + 1
  | .altR a b => reSize a + reSize b + 1
  | .star a => reSize a + 2
  | .plus a => 2 * reSize a + 4
  | .opt a => reSize a + 2
  | .repR a lo hi => (reSize a + 2) * (max lo (hi.getD lo) + 2) + 1
  | .possR a => reSize a + 2

/-- Captured group spans, most recent first. -/
abbrev Caps := List (Nat × Nat × Nat)

/-- The most recent span captured by a group. -/
def capLookup (caps : Caps) (i : Nat) : Option (Nat × Nat) :=
  match caps with
  | [] => none
  | (j, se) :: rest => if j = i then some se else capLookup rest i

/-- Whether the character at index `i` exists and is a word character. -/
def wordAt (text : List Char) (i : Nat) : Bool :=
  match text[i]? with
  | some ch => isWordChar ch
  | none => false

/-- Fuel-bounded backtracking matcher in continuation style, starting at
position `pos` in `text`, threading group captures.  It returns the
first successful final state in preference order (`none` = no match),
which lets a possessive quantifier commit to its preferred inner match
and cut backtracking, as the `re` engine does. -/
def reMatch :
    Nat → RE → List Char → Nat → Caps → (Nat → Caps → Option (Nat × Caps)) →
      Option (Nat × Caps)
  | 0, _, _, _, _, _ => none
  | fuel + 1, re, text, pos, caps, k =>
    match re with
    | .eps => k pos caps
    | .lit c =>
      match text[pos]? with
      | some c2 => if foldCase c == foldCase c2 then k (pos + 1) caps else none
      | none => none
    | .anyc =>
      match text[pos]? with
      | some c2 => if c2 != '\n' then k (pos + 1) caps else none
      | none => none
    | .cclass neg items =>
      match text[pos]? with
      | some c2 => if classMatch neg items c2 then k (pos + 1) caps else none
      | none => none
    | .startAnchor => if pos == 0 then k pos caps else none
    | .endAnchor => if pos == text.length then k pos caps else none
    | .bosR => if pos == 0 then k pos caps else none
    | .eosR => if pos == text.length then k pos caps else none
    | .wbR =>
      if ((match pos with
           | 0 => false
           | q + 1 => wordAt text q) != wordAt text pos) then k pos caps else none
    | .nwbR =>
      if ((match pos with
           | 0 => false
           | q + 1 => wordAt text q) == wordAt text pos) then k pos caps else none
    | .groupR i a =>
      reMatch fuel a text pos caps (fun p cp => k p ((i, (pos, p)) :: cp))
    | .backrefR i =>
      (match capLookup caps i with
       | none => none
       | some (s, e) =>
         let seg := (text.drop s).take (e - s)
         let here := (text.drop pos).take (e - s)
         if decide (pos + (e - s) ≤ text.length) && seg.map foldCase == here.map foldCase then
           k (pos + (e - s)) caps
         else none)
    | .seqR a b => reMatch fuel a text pos caps (fun p cp => reMatch fuel b text p cp k)
    | .altR a b =>
      (match reMatch fuel a text pos caps k with
       | some r => some r
       | none => reMatch fuel b text pos caps k)
    | .star a =>
      (match reMatch fuel a text pos caps
          (fun p cp => if p != pos then reMatch fuel (.star a) text p cp k else none) with
       | some r => some r
       | none => k pos caps)
    | .plus a => reMatch fuel a text pos caps (fun p cp => reMatch fuel (.star a) text p cp k)
    | .opt a =>
      (match reMatch fuel a text pos caps k with
       | some r => some r
       | none => k pos caps)
    | .repR a lo hi =>
      match lo with
      | l + 1 =>
        reMatch fuel a text pos caps
          (fun p cp => reMatch fuel (.repR a l (hi.map (· - 1))) text p cp k)
      | 0 =>
        match hi with
        | none => reMatch fuel (.star a) text pos caps k
        | some 0 => k pos caps
        | some (h + 1) =>
          (match reMatch fuel a text pos caps
              (fun p cp => if p != pos then reMatch fuel (.repR a 0 (some h)) text p cp k
                           else none) with
           | some r => some r
           | none => k pos caps)
    | .possR a =>
      (match reMatch fuel a text pos caps (fun p cp => some (p, cp)) with
       | none => none
       | some (p, cp) => k p cp)

/-- `re.search`: try every start position. -/
def reSearch (re : RE) (text : List Char) : Bool :=
  (List.range (text.length + 1)).any (fun i =>
    (reMatch ((reSize re + 2) * (text.length + 2) * 8 + 8) re text i []
      (fun p cp => some (p, cp))).isSome)

/-- `re.search(pattern, text, re.IGNORECASE)` wrapped in
`try/except re.error`: `.bad` is the raised `re.error`, `.outside`
propagates the unmodelled-core marker. -/
def pySearch (pattern text : String) : PRes Bool :=
  match compileRegex pattern with
  | .ok re => .ok (reSearch re text.data)
  | .bad => .bad
  | .outside => .outside

/-! ## Rules engine (`app/rules/engine.py`) -/

/-- A categorization rule (`app/models.py` `Rule`). -/
structure Rule where
  id : ℤ := 0
  name : String := ""
  priority : ℤ := 0
  payee_exact : Option String := none
  payee_contains : Option String := none
  payee_regex : Option String := none
  memo_contains : Option String := none
  memo_regex : Option String := none
  amount_exact : Option ℚ := none
  amount_min : Option ℚ := none
  amount_max : Option ℚ := none
  category_id : String := ""
  category_name : String := ""
  is_active : Bool := true
deriving Repr, DecidableEq

/-- `RulesEngine._rule_matches`: every non-null condition must pass, in
the source's order; an invalid regex pattern raises `re.error`, which is
caught and the condition skipped; a memo condition against a
missing/empty memo disqualifies.  A regex pattern outside the modelled
core (`.outside`) is also treated as skipped — no claim quantifies over
such patterns. -/
def ruleMatches (rule : Rule) (txn : Transaction) : Bool :=
  (match rule.payee_exact with
   | some pe => pyUpper txn.payee == pyUpper pe
   | none => true) &&
  (match rule.payee_contains with
   | some pc => pyInStr (pyUpper pc) (pyUpper txn.payee)
   | none => true) &&
  (match rule.payee_regex with
   | some pr =>
     match pySearch pr txn.payee with
     | .ok b => b
     | .bad => true
     | .outside => true
   | none => true) &&
  (match rule.memo_contains with
   | some mc =>
     if pyTruthyStr txn.memo then pyInStr (pyUpper mc) (pyUpper (txn.memo.getD ""))
     else false
   | none => true) &&
  (match rule.memo_regex with
   | some mr =>
     if pyTruthyStr txn.memo then
       match pySearch mr (txn.memo.getD "") with
       | .ok b => b
       | .bad => true
       | .outside => true
     else false
   | none => true) &&
  (match rule.amount_exact with
   | some ae => decide (|txn.amount - ae| ≤ 1 / 100)
   | none => true) &&
  (match rule.amount_min with
   | some am => decide (am ≤ txn.amount)
   | none => true) &&
  (match rule.amount_max with
   | some am => decide (txn.amount ≤ am)
   | none => true)

/-- `RulesEngine._find_matching_rule`: first match in list order wins. -/
def findMatchingRule (txn : Transaction) : List Rule → Option Rule
  | [] => none
  | r :: rest => if ruleMatches r txn then some r else findMatchingRule txn rest

/-- `RulesEngine.get_rules`: the active rules ordered by priority,
highest first (a stable descending sort models the repository query). -/
def getRules (all : List Rule) : List Rule :=
  List.insertionSort (fun a b => b.priority ≤ a.priority) (all.filter (·.is_active))

/-- The draft rule produced by `RulesEngine.suggest_rule`. -/
structure RuleDraft where
  name : String
  priority : ℤ
  category_id : String
  category_name : String
  payee_exact : Option String := none
  payee_contains : Option String := none
  amount_exact : Option ℚ := none
deriving Repr, DecidableEq

/-- Python `str.split()` with no separator: split on whitespace runs,
dropping empty tokens. -/
def wordsAux : List Char → List Char → List String
  | [], acc => if acc = [] then [] else [⟨acc.reverse⟩]
  | c :: rest, acc =>
    if pyIsSpace c then
      if acc = [] then wordsAux rest [] else ⟨acc.reverse⟩ :: wordsAux rest []
    else wordsAux rest (c :: acc)

/-- Python `s.split()`. -/
def pyWords (s : String) : List String := wordsAux s.data []

/-- `RulesEngine.suggest_rule`. -/
def suggestRule (txn : Transaction) (categoryId categoryName : String) : RuleDraft :=
  let base : RuleDraft :=
    { name := "Rule for " ++ strTake 30 txn.payee
      priority := 10
      category_id := categoryId
      category_name := categoryName }
  let withPayee :=
    if txn.payee.length ≤ 30 && !pyInStr " " txn.payee then
      { base with payee_exact := some txn.payee }
    else
      match pyWords txn.payee with
      | [] => base
      | w :: ws =>
        let mainWord :=
          match (w :: ws).find? (fun word =>
            decide (3 < word.length) && !(["OY", "AB", "OYJ"].contains (pyUpper word))) with
          | some x => x
          | none => w
        { base with payee_contains := some mainWord }
  if txn.amount = (pyInt txn.amount : ℚ) then { withPayee with amount_exact := some txn.amount }
  else withPayee

/-! ## Pattern analyzer (`app/rules/analyzer.py`) -/

/-- A historical transaction record as consumed by `PatternAnalyzer`
(the dict fields the code reads). -/
structure ATxn where
  payee_name : Option String := none
  category_id : Option String := none
  category_name : Option String := none
  amount : ℚ := 0
deriving Repr, DecidableEq

/-- `PatternAnalyzer._get_direction`. -/
def directionOf (amount : ℚ) : String :=
  if 0 ≤ amount then "incoming" else "outgoing"

/-- Python `s.startswith(pre)`. -/
def pyStartsWith (pre s : String) : Bool := pre.data.isPrefixOf s.data

/-- The grouping key of a transaction, `none` when the record is
discarded (blank payee or transfer marker). -/
def analyzerKey (t : ATxn) : Option (String × String) :=
  let payee := pyStrip (t.payee_name.getD "")
  if payee = "" then none
  else if pyStartsWith "Transfer :" payee then none
  else some (payee, directionOf t.amount)

/-- First-appearance deduplication of keys, as iteration over a Python
dict built by insertion. -/
def dedupAux : List (String × String) → List (String × String) → List (String × String)
  | [], acc => acc.reverse
  | k :: rest, acc => if acc.contains k then dedupAux rest acc else dedupAux rest (k :: acc)

/-- The group keys in first-appearance order. -/
def keysOf (ts : List ATxn) : List (String × String) :=
  dedupAux (ts.filterMap analyzerKey) []

/-- The members of one (payee, direction) group, in encounter order. -/
def groupTxns (ts : List ATxn) (k : String × String) : List ATxn :=
  ts.filter (fun t => analyzerKey t == some k)

/-- The category key the tally uses (`None`/empty count as
uncategorized). -/
def normCat (t : ATxn) : String :=
  match t.category_id with
  | some c => if c = "" then "__uncategorized__" else c
  | none => "__uncategorized__"

/-- `txn.get("category_name") or "Uncategorized"`. -/
def catNameOf (t : ATxn) : String :=
  if pyTruthyStr t.category_name then t.category_name.getD "" else "Uncategorized"

/-- One entry of the per-group category tally. -/
structure Tally where
  cat : String
  count : Nat
  name : String
  txns : List ATxn
deriving Repr, DecidableEq

/-- Insert one transaction into the tally (the `category_counts`
defaultdict update). -/
def upsertTally (acc : List Tally) (t : ATxn) : List Tally :=
  let c := normCat t
  if acc.any (fun e => e.cat == c) then
    acc.map (fun e =>
      if e.cat == c then
        { e with count := e.count + 1, name := catNameOf t, txns := e.txns ++ [t] }
      else e)
  else acc ++ [{ cat := c, count := 1, name := catNameOf t, txns := [t] }]

/-- The category tally of a group, keys in first-appearance order. -/
def catTally (ts : List ATxn) : List Tally := ts.foldl upsertTally []

/-- A rule suggestion (`analyzer.RuleSuggestion`). -/
structure RuleSuggestion where
  payee_name : String
  category_id : String
  category_name : String
  direction : String
  confidence : ℚ
  transaction_count : Nat
  total_for_payee : Nat
  sample_transactions : List ATxn
deriving Repr, DecidableEq

/-- The suggestions emitted for one (payee, direction) group: every real
category whose share of the group reaches the threshold. -/
def groupSuggestions (threshold : ℚ) (payee dir : String) (txns : List ATxn) :
    List RuleSuggestion :=
  (catTally txns).filterMap (fun e =>
    if e.cat = "__uncategorized__" then none
    else
      let confidence : ℚ := (e.count : ℚ) / (txns.length : ℚ) * 100
      if threshold ≤ confidence then
        some
          { payee_name := payee
            category_id := e.cat
            category_name := e.name
            direction := dir
            confidence := confidence
            transaction_count := e.count
            total_for_payee := txns.length
            sample_transactions := e.txns.take 5 }
      else none)

/-- Sort order of the final suggestion list: confidence descending, then
transaction count descending. -/
def suggBefore (a b : RuleSuggestion) : Prop :=
  b.confidence < a.confidence ∨
    (a.confidence = b.confidence ∧ b.transaction_count ≤ a.transaction_count)

instance : DecidableRel suggBefore := fun a b => by
  unfold suggBefore
  infer_instance

/-- `PatternAnalyzer.analyze`. -/
def analyze (threshold : ℚ) (minTransactions : Nat) (ts : List ATxn) :
    List RuleSuggestion :=
  let groups := (keysOf ts).map (fun k => (k, groupTxns ts k))
  let suggestions := groups.flatMap (fun kg =>
    if kg.2.length < minTransactions then []
    else groupSuggestions threshold kg.1.1 kg.1.2 kg.2)
  List.insertionSort suggBefore suggestions

/-! ## Theorems -/

/-- C1: a rule whose match predicates are all null matches every
transaction (the all-AND check over an empty condition set is vacuously
true). -/
theorem rule_without_predicates_matches_all (r : Rule) (t : Transaction)
    (hact : r.is_active = true)
    (h1 : r.payee_exact = none) (h2 : r.payee_contains = none)
    (h3 : r.payee_regex = none) (h4 : r.memo_contains = none)
    (h5 : r.memo_regex = none) (h6 : r.amount_exact = none)
    (h7 : r.amount_min = none) (h8 : r.amount_max = none) :
    ruleMatches r t = true := by
  simp [ruleMatches, h1, h2, h3, h4, h5, h6, h7, h8]

/-- Witness for C1: a concrete empty-predicate active rule matches a
concrete transaction. -/
theorem rule_without_predicates_matches_all_witness :
    ruleMatches { category_id := "c", category_name := "n" }
      { date := "2024-03-15", payee := "K-MARKET", amount := -45.67, memo := none,
        import_id := "i", original_date := "15.03.2024", original_amount := some "-45,67",
        reference := none, archive_id := none } = true :=
  rule_without_predicates_matches_all _ _ rfl rfl rfl rfl rfl rfl rfl rfl rfl

/-- C2: the matcher returns the first rule, in the active-rules order
(priority descending), that the match check accepts; in particular with
two matching rules of priorities 5 and 10 the priority-10 rule is
assigned. -/
theorem first_matching_rule_wins :
    (∀ (t : Transaction) (rules : List Rule),
        findMatchingRule t rules = rules.find? (fun r => ruleMatches r t)) ∧
    (∀ (t : Transaction) (r1 r2 : Rule),
        r1.priority = 5 → r2.priority = 10 →
        r1.is_active = true → r2.is_active = true →
        ruleMatches r1 t = true → ruleMatches r2 t = true →
        findMatchingRule t (getRules [r1, r2]) = some r2) := by
  constructor
  · intro t rules
    induction rules with
    | nil => rfl
    | cons r rest ih =>
      cases h : ruleMatches r t <;> simp [findMatchingRule, List.find?, h, ih]
  · intro t r1 r2 hp1 hp2 ha1 ha2 hm1 hm2
    have hsort : getRules [r1, r2] = [r2, r1] := by
      simp [getRules, List.insertionSort, List.orderedInsert, ha1, ha2, hp1, hp2]
    rw [hsort]
    simp [findMatchingRule, hm2]

/-- A concrete transaction used by several witnesses. -/
def sampleTxn : Transaction :=
  { date := "2024-03-15", payee := "K-MARKET", amount := -45.67,
    memo := some "KORTTIOSTO", import_id := "i", original_date := "15.03.2024",
    original_amount := some "-45,67", reference := none, archive_id := none }

/-- Witness for C2: both parts applied at concrete inputs. -/
theorem first_matching_rule_wins_witness :
    (findMatchingRule sampleTxn
        [{ priority := 5, payee_contains := some "MARKET", category_id := "a", category_name := "a" }] =
      List.find? (fun r => ruleMatches r sampleTxn)
        [{ priority := 5, payee_contains := some "MARKET", category_id := "a", category_name := "a" }]) ∧
    findMatchingRule sampleTxn
        (getRules
          [{ priority := 5, payee_contains := some "MARKET", category_id := "a", category_name := "a" },
           { priority := 10, payee_contains := some "K-", category_id := "b", category_name := "b" }]) =
      some { priority := 10, payee_contains := some "K-", category_id := "b", category_name := "b" } :=
  ⟨first_matching_rule_wins.1 sampleTxn _,
   first_matching_rule_wins.2 sampleTxn _ _ rfl rfl rfl rfl (by decide) (by decide)⟩

/-- C6: the amount parser strips spaces and non-breaking spaces, removes
periods when both separators occur, turns commas into periods and parses
the decimal; the given examples evaluate as specified and every cleaned
string the float parser rejects yields 0.0 (and so does the empty
string) instead of failing the row. -/
theorem amount_parse_spec :
    parseFinnishAmount "1.234,56" = 1234.56 ∧
    parseFinnishAmount "45,00" = 45 ∧
    parseFinnishAmount "-12,50" = -12.5 ∧
    (∀ s : String, pyFloat (cleanAmount s) = none → parseFinnishAmount s = 0) ∧
    parseFinnishAmount "" = 0 := by
  refine ⟨by decide, by decide, by decide, ?_, by decide⟩
  intro s h
  by_cases hs : s = ""
  · simp [parseFinnishAmount, hs]
  · simp [parseFinnishAmount, hs, h]

/-- Witness for C6: the failure clause applied at a concrete unparsable
string. -/
theorem amount_parse_spec_witness :
    pyFloat (cleanAmount "12,34,56") = none ∧ parseFinnishAmount "12,34,56" = 0 :=
  ⟨by decide, amount_parse_spec.2.2.2.1 "12,34,56" (by decide)⟩

/-- String concatenation acts as list concatenation on the data. -/
theorem data_append (a b : String) : (a ++ b).data = a.data ++ b.data := by
  cases a
  cases b
  rfl

/-- The digest always has 16 bytes. -/
theorem md5Bytes_length (m : List Nat) : (md5Bytes m).length = 16 := by
  unfold md5Bytes
  rcases (chunks64 (md5Pad m)).foldl md5Block
      (0x67452301, 0xefcdab89, 0x98badcfe, 0x10325476) with ⟨a, b, c, d⟩
  simp [le4]

/-- Hex rendering doubles the length. -/
theorem flatMap_byteHex_length (l : List Nat) : (l.flatMap byteHex).length = 2 * l.length := by
  induction l with
  | nil => rfl
  | cons b rest ih =>
    simp only [List.flatMap_cons, List.length_append, ih, byteHex, List.length_cons,
      List.length_nil]
    omega

/-- The hex digest always has 32 characters. -/
theorem md5HexChars_length (s : String) : (md5HexChars s).length = 32 := by
  unfold md5HexChars
  rw [flatMap_byteHex_length, md5Bytes_length]

/-- The data of the 8-character slice of a digest. -/
theorem strTake_md5_data (u : String) :
    (strTake 8 (md5Hex u)).data = (md5HexChars u).take 8 := rfl

/-- The 8-character slice of a digest has 8 characters. -/
theorem take8_md5_length (u : String) : ((md5HexChars u).take 8).length = 8 := by
  simp [List.length_take, md5HexChars_length]

/-- The hash branch of the generator, spelled out. -/
theorem hashImportId_unfold (d p : String) (a : ℚ) :
    hashImportId d p a =
      "YNAB:" ++ toString (milliunits a) ++ ":" ++ d ++ ":" ++
        strTake 8 (md5Hex (d ++ ":" ++ p ++ ":" ++ pyFloatStr a)) := rfl

/-- C3 (amended): the import-id generator is a pure function of its
inputs with the stated format — `"OP:" + archive_id` whenever the
archive id is present **and non-empty**, and otherwise (absent or empty
archive id) the `"YNAB:" + milliunits + ":" + date + ":" + hash8`
format over a content hash of (date, payee, amount); two hash-branch
ids can only coincide when their 8-character hash prefixes coincide, so
changing an input changes the id barring a hash collision. -/
theorem import_id_format :
    (∀ (d p : String) (a : ℚ) (s : String), s ≠ "" →
        generateImportId d p a (some s) = "OP:" ++ s) ∧
    (∀ (d p : String) (a : ℚ),
        generateImportId d p a none =
          "YNAB:" ++ toString (milliunits a) ++ ":" ++ d ++ ":" ++
            strTake 8 (md5Hex (d ++ ":" ++ p ++ ":" ++ pyFloatStr a))) ∧
    (∀ (d p : String) (a : ℚ),
        generateImportId d p a (some "") = generateImportId d p a none) ∧
    (∀ (d1 p1 : String) (a1 : ℚ) (d2 p2 : String) (a2 : ℚ),
        generateImportId d1 p1 a1 none = generateImportId d2 p2 a2 none →
        strTake 8 (md5Hex (d1 ++ ":" ++ p1 ++ ":" ++ pyFloatStr a1)) =
          strTake 8 (md5Hex (d2 ++ ":" ++ p2 ++ ":" ++ pyFloatStr a2))) := by
  refine ⟨?_, ?_, ?_, ?_⟩
  · intro d p a s hs
    simp [generateImportId, hs]
  · intro d p a
    rfl
  · intro d p a
    simp [generateImportId]
  · intro d1 p1 a1 d2 p2 a2 h
    simp only [generateImportId, hashImportId_unfold] at h
    have hd := congrArg String.data h
    simp only [data_append] at hd
    have hlen : (strTake 8 (md5Hex (d1 ++ ":" ++ p1 ++ ":" ++ pyFloatStr a1))).data.length =
        (strTake 8 (md5Hex (d2 ++ ":" ++ p2 ++ ":" ++ pyFloatStr a2))).data.length := by
      rw [strTake_md5_data, take8_md5_length, strTake_md5_data, take8_md5_length]
    have := List.append_inj' hd hlen
    exact String.ext this.2

/-- Counterexample for C3 as literally stated: an archive id that is
present but empty does not produce `"OP:" + archive_id` (Python's
truthiness test sends it to the hash branch). -/
theorem import_id_empty_archive_cex :
    generateImportId "2024-03-15" "K-MARKET" (-45.67) (some "") ≠ "OP:" ++ "" := by
  decide

/-- Witness for C3: the format clauses applied at concrete inputs. -/
theorem import_id_format_witness :
    generateImportId "2024-03-15" "K-MARKET" (-45.67) (some "20240315/1234") =
      "OP:" ++ "20240315/1234" ∧
    generateImportId "2024-03-15" "K-MARKET" (-45.67) none =
      "YNAB:" ++ toString (milliunits (-45.67)) ++ ":" ++ "2024-03-15" ++ ":" ++
        strTake 8 (md5Hex ("2024-03-15" ++ ":" ++ "K-MARKET" ++ ":" ++ pyFloatStr (-45.67))) :=
  ⟨import_id_format.1 "2024-03-15" "K-MARKET" (-45.67) "20240315/1234" (by decide),
   import_id_format.2.1 "2024-03-15" "K-MARKET" (-45.67)⟩

/-- A row whose payee field is blank and whose explanation field is
present but blank. -/
def blankExplanationRow : Row :=
  [("booking_date", some "15.03.2024"), ("amount", some "-45,67"),
   ("payee", some ""), ("explanation", some "")]

/-- A row whose payee field is blank and whose explanation key is absent
from the row entirely. -/
def missingExplanationRow : Row :=
  [("booking_date", some "15.03.2024"), ("amount", some "-45,67"), ("payee", some "")]

/-- A row whose payee field is blank and whose explanation is
non-blank. -/
def explanationPayeeRow : Row :=
  [("booking_date", some "15.03.2024"), ("amount", some "-45,67"),
   ("payee", some ""), ("explanation", some "K-MARKET")]

/-- C4 evaluated at the failing input: with a blank payee field and a
**present but blank** explanation field the emitted payee is the empty
string, not the literal `"Unknown"`; `"Unknown"` only appears when the
explanation key is absent (the `row.get` default), and a non-blank
explanation is used as the payee as specified. -/
theorem blank_explanation_payee_empty :
    (parseRows [blankExplanationRow]).map (·.payee) = [""] ∧
    (parseRows [missingExplanationRow]).map (·.payee) = ["Unknown"] ∧
    (parseRows [explanationPayeeRow]).map (·.payee) = ["K-MARKET"] :=
  ⟨rfl, rfl, rfl⟩

/-- Digit characters below 10 satisfy `isDigit`. -/
theorem digitChar_isDigit : ∀ n, n < 10 → (digitChar n).isDigit = true := by decide

/-- `digitVal` inverts `digitChar` below 10. -/
theorem digitVal_digitChar : ∀ n, n < 10 → digitVal (digitChar n) = n := by decide

/-- A digit character is never a dot. -/
theorem digit_ne_dot (c : Char) (hc : c.isDigit = true) : c ≠ '.' := by
  intro h
  subst h
  exact absurd hc (by decide)

/-- The day/month matcher recovers any one- or two-digit group followed
by a dot, exactly as the backtracking regex group does. -/
theorem takeNumDot_digits (ds : List Char) (h1 : 1 ≤ ds.length) (h2 : ds.length ≤ 2)
    (hd : ds.all (·.isDigit) = true) (tail : List Char) :
    takeNumDot (ds ++ '.' :: tail) = some (digitsToNat ds, tail) := by
  cases ds with
  | nil => simp at h1
  | cons c1 t =>
    cases t with
    | nil =>
      have hc1 : c1.isDigit = true := by simpa using hd
      cases tail with
      | nil => simp [takeNumDot, digitsToNat, hc1]
      | cons t0 ts =>
        simp [takeNumDot, digitsToNat, hc1, show ('.' : Char).isDigit = false by decide]
    | cons c2 t2 =>
      cases t2 with
      | cons c3 t3 => simp at h2
      | nil =>
        have hc : c1.isDigit = true ∧ c2.isDigit = true := by simpa using hd
        simp [takeNumDot, digitsToNat, hc.1, hc.2]

/-- The year matcher recovers a four-digit rendering exactly. -/
theorem take4Digits_render4 (y : Nat) (hy : y < 10000) (tail : List Char) :
    take4Digits (render4 y ++ tail) = some (y, tail) := by
  have h1 : y / 1000 < 10 := by omega
  have h2 : y / 100 % 10 < 10 := by omega
  have h3 : y / 10 % 10 < 10 := by omega
  have h4 : y % 10 < 10 := by omega
  simp [render4, take4Digits, digitChar_isDigit _ h1, digitChar_isDigit _ h2,
    digitChar_isDigit _ h3, digitChar_isDigit _ h4, digitVal_digitChar _ h1,
    digitVal_digitChar _ h2, digitVal_digitChar _ h3, digitVal_digitChar _ h4]
  omega

/-- Spec-side shape (from the claim's words): a string that is exactly
`DD.MM.YYYY` with one- or two-digit day and month and a four-digit
year. -/
def specExactFinnishShape (s : String) : Bool :=
  let p1 := s.data.span (·.isDigit)
  match p1.2 with
  | '.' :: r1 =>
    let p2 := r1.span (·.isDigit)
    match p2.2 with
    | '.' :: r2 =>
      let p3 := r2.span (·.isDigit)
      p3.2.isEmpty && decide (1 ≤ p1.1.length) && decide (p1.1.length ≤ 2) &&
        decide (1 ≤ p2.1.length) && decide (p2.1.length ≤ 2) && decide (p3.1.length = 4)
    | _ => false
  | _ => false

/-- Spec-side shape (from the claim's words): a string that is exactly
`YYYY-MM-DD`. -/
def specExactIsoShape (s : String) : Bool :=
  let p1 := s.data.span (·.isDigit)
  match p1.2 with
  | '-' :: r1 =>
    let p2 := r1.span (·.isDigit)
    match p2.2 with
    | '-' :: r2 =>
      let p3 := r2.span (·.isDigit)
      p3.2.isEmpty && decide (p1.1.length = 4) && decide (p2.1.length = 2) &&
        decide (p3.1.length = 2)
    | _ => false
  | _ => false

/-- Counterexample for C5 as literally stated: `"31.12.2024x"` has
neither the `DD.MM.YYYY` shape nor the `YYYY-MM-DD` shape, yet the date
extraction accepts it (the regexes are unanchored prefix matches), so a
string of "any other shape" is not always skipped. -/
theorem date_trailing_junk_cex :
    specExactFinnishShape "31.12.2024x" = false ∧
    specExactIsoShape "31.12.2024x" = false ∧
    parseFinnishDate "31.12.2024x" = some "2024-12-31" := by
  refine ⟨by decide, by decide, by decide⟩

/-- C5 (amended): date extraction is by **prefix**.  When the stripped
input starts with `D(D).M(M).YYYY` the extraction succeeds exactly when
that triple is a real calendar date (so `31.02.2024` is rejected and the
row dropped) and returns the ISO rendering of the same day, month and
year, ignoring any trailing characters; when the stripped input instead
starts with `YYYY-MM-DD` it returns the whole stripped string unchanged
(without calendar validation); when neither prefix matches, the
extraction fails and the row is skipped. -/
theorem date_parse_amended :
    (∀ (s : String) (ds ms : List Char) (y : Nat) (rest : List Char),
        (pyStrip s).data = ds ++ '.' :: (ms ++ '.' :: (render4 y ++ rest)) →
        1 ≤ ds.length → ds.length ≤ 2 → ds.all (·.isDigit) = true →
        1 ≤ ms.length → ms.length ≤ 2 → ms.all (·.isDigit) = true →
        y < 10000 →
        parseFinnishDate s =
          if validDate y (digitsToNat ms) (digitsToNat ds) then
            some (isoString y (digitsToNat ms) (digitsToNat ds))
          else none) ∧
    (∀ (s : String) (y1 y2 y3 y4 m1 m2 d1 d2 : Char) (rest : List Char),
        (pyStrip s).data = y1 :: y2 :: y3 :: y4 :: '-' :: m1 :: m2 :: '-' :: d1 :: d2 :: rest →
        y1.isDigit = true → y2.isDigit = true → y3.isDigit = true → y4.isDigit = true →
        m1.isDigit = true → m2.isDigit = true → d1.isDigit = true → d2.isDigit = true →
        parseFinnishDate s = some (pyStrip s)) ∧
    (∀ s : String,
        matchFinnishDate (pyStrip s).data = none → matchIsoShape (pyStrip s).data = false →
        parseFinnishDate s = none) ∧
    parseFinnishDate "31.02.2024" = none ∧
    parseFinnishDate "5.3.2024" = some "2024-03-05" ∧
    parseFinnishDate "31.2.2024" = none := by
  refine ⟨?_, ?_, ?_, by decide, by decide, by decide⟩
  · intro s ds ms y rest hs hd1 hd2 hdd hm1 hm2 hmd hy
    simp only [parseFinnishDate]
    rw [hs]
    rw [show matchFinnishDate (ds ++ '.' :: (ms ++ '.' :: (render4 y ++ rest))) =
        some (digitsToNat ds, digitsToNat ms, y) by
      simp [matchFinnishDate, takeNumDot_digits ds hd1 hd2 hdd,
        takeNumDot_digits ms hm1 hm2 hmd, take4Digits_render4 y hy]]
  · intro s y1 y2 y3 y4 m1 m2 d1 d2 rest hs h1 h2 h3 h4 h5 h6 h7 h8
    simp only [parseFinnishDate]
    rw [hs]
    have hy3 := digit_ne_dot y3 h3
    simp [matchFinnishDate, takeNumDot, take4Digits, take2Digits, matchIsoShape,
      h1, h2, h3, h4, h5, h6, h7, h8, hy3]
  · intro s h1 h2
    simp [parseFinnishDate, h1, h2]

/-- Witness for C5: the round-trip clause at `15.03.2024` and the
prefix-ISO clause at `2024-03-15`, plus the "neither prefix" clause at a
junk string. -/
theorem date_parse_amended_witness :
    (parseFinnishDate "15.03.2024" =
      if validDate 2024 (digitsToNat ['0', '3']) (digitsToNat ['1', '5']) then
        some (isoString 2024 (digitsToNat ['0', '3']) (digitsToNat ['1', '5']))
      else none) ∧
    (parseFinnishDate "5.3.2024" =
      if validDate 2024 (digitsToNat ['3']) (digitsToNat ['5']) then
        some (isoString 2024 (digitsToNat ['3']) (digitsToNat ['5']))
      else none) ∧
    parseFinnishDate "2024-03-15" = some (pyStrip "2024-03-15") ∧
    parseFinnishDate "March 2024" = none :=
  ⟨date_parse_amended.1 "15.03.2024" ['1', '5'] ['0', '3'] 2024 [] (by decide) (by decide)
     (by decide) (by decide) (by decide) (by decide) (by decide) (by decide),
   date_parse_amended.1 "5.3.2024" ['5'] ['3'] 2024 [] (by decide) (by decide)
     (by decide) (by decide) (by decide) (by decide) (by decide) (by decide),
   date_parse_amended.2.1 "2024-03-15" '2' '0' '2' '4' '0' '3' '1' '5' [] (by decide) (by decide)
     (by decide) (by decide) (by decide) (by decide) (by decide) (by decide) (by decide),
   date_parse_amended.2.2.1 "March 2024" (by decide) (by decide)⟩

/-- The number of transactions of a group tallied under category key
`c`. -/
def catCount (c : String) (ts : List ATxn) : Nat :=
  ts.countP (fun t => normCat t == c)

/-- The count recorded in a tally for category key `c` (0 when the key
is absent). -/
def tallyCount (acc : List Tally) (c : String) : Nat :=
  match acc.find? (fun e => e.cat == c) with
  | some e => e.count
  | none => 0

/-- Unfolding `tallyCount` over a cons. -/
theorem tallyCount_cons (x : Tally) (l : List Tally) (c : String) :
    tallyCount (x :: l) c = if x.cat = c then x.count else tallyCount l c := by
  by_cases h : x.cat = c
  · simp [tallyCount, List.find?, h]
  · have hb : (x.cat == c) = false := by simpa using h
    simp [tallyCount, List.find?, hb, h]

/-- A tally with no entry for `c` records count 0. -/
theorem tallyCount_eq_zero (acc : List Tally) (c : String)
    (h : acc.any (fun e => e.cat == c) = false) : tallyCount acc c = 0 := by
  have hf : acc.find? (fun e => e.cat == c) = none := by
    rw [List.find?_eq_none]
    intro x hx
    simpa using List.any_eq_false.mp h x hx
  simp [tallyCount, hf]

/-- The tally update preserves each entry's key. -/
theorem incEntry_cat (t : ATxn) (e : Tally) :
    (if e.cat == normCat t then
        { e with count := e.count + 1, name := catNameOf t, txns := e.txns ++ [t] }
      else e).cat = e.cat := by
  by_cases h : (e.cat == normCat t) = true <;> simp [h]

/-- The count of an updated entry. -/
theorem incEntry_count (t : ATxn) (e : Tally) :
    (if e.cat == normCat t then
        { e with count := e.count + 1, name := catNameOf t, txns := e.txns ++ [t] }
      else e).count = if (e.cat == normCat t) = true then e.count + 1 else e.count := by
  by_cases h : (e.cat == normCat t) = true <;> simp [h]

/-- Incrementing the matching entries changes exactly the present
matching count. -/
theorem tallyCount_map_inc (acc : List Tally) (t : ATxn) (c : String) :
    tallyCount (acc.map (fun e =>
        if e.cat == normCat t then
          { e with count := e.count + 1, name := catNameOf t, txns := e.txns ++ [t] }
        else e)) c =
      tallyCount acc c +
        (if normCat t = c ∧ acc.any (fun e => e.cat == c) = true then 1 else 0) := by
  induction acc with
  | nil => simp [tallyCount]
  | cons e rest ih =>
    simp only [List.map_cons, tallyCount_cons, List.any_cons, incEntry_cat, incEntry_count]
    by_cases hc : e.cat = c
    · by_cases ht : normCat t = c
      · have hbt : (e.cat == normCat t) = true := by simp [hc, ht]
        simp [hc, ht, hbt]
      · have hbt : (e.cat == normCat t) = false := by
          simp only [beq_eq_false_iff_ne, ne_eq, hc]
          intro h
          exact ht h.symm
        have hcc : ¬c = normCat t := fun h => ht h.symm
        simp [hc, ht, hbt, hcc]
    · have hbc : (e.cat == c) = false := by simpa using hc
      rw [if_neg hc, if_neg hc]
      simp only [hbc, Bool.false_or]
      exact ih

/-- Appending one entry only matters when the key was absent. -/
theorem tallyCount_append (acc : List Tally) (x : Tally) (c : String) :
    tallyCount (acc ++ [x]) c =
      if acc.any (fun e => e.cat == c) then tallyCount acc c
      else if x.cat = c then x.count else 0 := by
  induction acc with
  | nil => by_cases h : x.cat = c <;> simp [tallyCount_cons, tallyCount, h]
  | cons e rest ih =>
    by_cases hc : e.cat = c <;> simp [tallyCount_cons, hc, ih, List.any_cons]

/-- One `upsertTally` step adds exactly one to the inserted key's
count. -/
theorem tallyCount_upsert (acc : List Tally) (t : ATxn) (c : String) :
    tallyCount (upsertTally acc t) c =
      tallyCount acc c + (if normCat t = c then 1 else 0) := by
  by_cases hA : acc.any (fun e => e.cat == normCat t) = true
  · rw [show upsertTally acc t = acc.map (fun e =>
        if e.cat == normCat t then
          { e with count := e.count + 1, name := catNameOf t, txns := e.txns ++ [t] }
        else e) by simp [upsertTally, hA]]
    rw [tallyCount_map_inc]
    by_cases ht : normCat t = c
    · subst ht
      simp [hA]
    · simp [ht]
  · have hA2 : acc.any (fun e => e.cat == normCat t) = false := by
      simpa using hA
    rw [show upsertTally acc t =
        acc ++ [{ cat := normCat t, count := 1, name := catNameOf t, txns := [t] }] by
      simp [upsertTally, hA2]]
    rw [tallyCount_append]
    by_cases ht : normCat t = c
    · subst ht
      simp [hA2, tallyCount_eq_zero acc _ hA2]
    · have hxc : acc.any (fun e => e.cat == c) = true ∨
          acc.any (fun e => e.cat == c) = false := by
        cases acc.any (fun e => e.cat == c) <;> simp
      rcases hxc with h | h
      · simp [h, ht]
      · simp [h, ht, tallyCount_eq_zero acc c h]

/-- Folding a group through the tally counts the categories. -/
theorem tallyCount_foldl (ts : List ATxn) :
    ∀ (acc : List Tally) (c : String),
      tallyCount (ts.foldl upsertTally acc) c = tallyCount acc c + catCount c ts := by
  induction ts with
  | nil =>
    intro acc c
    simp [catCount]
  | cons t rest ih =>
    intro acc c
    simp only [List.foldl_cons]
    rw [ih, tallyCount_upsert]
    by_cases h : normCat t = c <;> simp [catCount, List.countP_cons, h] <;> omega

/-- The tally of a group records exactly the category counts. -/
theorem tallyCount_catTally (ts : List ATxn) (c : String) :
    tallyCount (catTally ts) c = catCount c ts := by
  have h := tallyCount_foldl ts [] c
  simpa [catTally, tallyCount] using h

/-- The tally's keys are distinct. -/
theorem catTally_cats_nodup_aux (ts : List ATxn) :
    ∀ acc : List Tally, (acc.map (·.cat)).Nodup →
      ((ts.foldl upsertTally acc).map (·.cat)).Nodup := by
  induction ts with
  | nil =>
    intro acc h
    simpa using h
  | cons t rest ih =>
    intro acc h
    simp only [List.foldl_cons]
    apply ih
    by_cases hA : acc.any (fun e => e.cat == normCat t) = true
    · rw [show upsertTally acc t = acc.map (fun e =>
          if e.cat == normCat t then
            { e with count := e.count + 1, name := catNameOf t, txns := e.txns ++ [t] }
          else e) by simp [upsertTally, hA]]
      rw [List.map_map]
      rw [show acc.map ((·.cat) ∘ (fun e =>
          if e.cat == normCat t then
            { e with count := e.count + 1, name := catNameOf t, txns := e.txns ++ [t] }
          else e)) = acc.map (·.cat) from
        List.map_congr_left (fun e _ => by by_cases h2 : e.cat = normCat t <;> simp [h2])]
      exact h
    · have hA2 : acc.any (fun e => e.cat == normCat t) = false := by simpa using hA
      rw [show upsertTally acc t =
          acc ++ [{ cat := normCat t, count := 1, name := catNameOf t, txns := [t] }] by
        simp [upsertTally, hA2]]
      rw [List.map_append]
      simp only [List.map_cons, List.map_nil]
      rw [List.nodup_append]
      refine ⟨h, by simp, ?_⟩
      intro a ha
      simp only [List.mem_singleton]
      intro hae
      rw [List.mem_map] at ha
      obtain ⟨e, he, hecat⟩ := ha
      have := List.any_eq_false.mp hA2 e he
      simp at this
      exact this (hecat.trans hae)

/-- The tally of a group has distinct keys. -/
theorem catTally_cats_nodup (ts : List ATxn) : ((catTally ts).map (·.cat)).Nodup :=
  catTally_cats_nodup_aux ts [] (by simp)

/-- Every tally entry records a positive count. -/
theorem catTally_count_pos_aux (ts : List ATxn) :
    ∀ acc : List Tally, (∀ e ∈ acc, 0 < e.count) →
      ∀ e ∈ ts.foldl upsertTally acc, 0 < e.count := by
  induction ts with
  | nil =>
    intro acc h
    simpa using h
  | cons t rest ih =>
    intro acc h
    simp only [List.foldl_cons]
    apply ih
    intro e he
    by_cases hA : acc.any (fun x => x.cat == normCat t) = true
    · rw [show upsertTally acc t = acc.map (fun x =>
          if x.cat == normCat t then
            { x with count := x.count + 1, name := catNameOf t, txns := x.txns ++ [t] }
          else x) by simp [upsertTally, hA]] at he
      rw [List.mem_map] at he
      obtain ⟨x, hx, hxe⟩ := he
      by_cases h2 : (x.cat == normCat t) = true
      · rw [← hxe]
        simp [h2]
      · rw [← hxe]
        simp only [h2]
        simp only [Bool.false_eq_true, if_false]
        exact h x hx
    · have hA2 : acc.any (fun x => x.cat == normCat t) = false := by simpa using hA
      rw [show upsertTally acc t =
          acc ++ [{ cat := normCat t, count := 1, name := catNameOf t, txns := [t] }] by
        simp [upsertTally, hA2]] at he
      rw [List.mem_append] at he
      rcases he with he | he
      · exact h e he
      · simp at he
        simp [he]

/-- Every tally entry of a group records a positive count. -/
theorem catTally_count_pos (ts : List ATxn) (e : Tally) (he : e ∈ catTally ts) :
    0 < e.count :=
  catTally_count_pos_aux ts [] (by simp) e he

/-- With distinct keys, `find?` on a member's key returns that member. -/
theorem find?_of_mem_nodup (l : List Tally) (hn : (l.map (·.cat)).Nodup)
    (e : Tally) (he : e ∈ l) : l.find? (fun x => x.cat == e.cat) = some e := by
  induction l with
  | nil => cases he
  | cons a rest ih =>
    rcases List.mem_cons.mp he with rfl | hmem
    · simp [List.find?]
    · have ha : a.cat ≠ e.cat := by
        intro hcontra
        simp only [List.map_cons, List.nodup_cons] at hn
        exact hn.1 (hcontra ▸ List.mem_map_of_mem (·.cat) hmem)
      have hb : (a.cat == e.cat) = false := by simpa using ha
      simp only [List.find?, hb]
      exact ih (by simp only [List.map_cons, List.nodup_cons] at hn; exact hn.2) hmem

/-- A tally entry's count is exactly its category's count in the
group. -/
theorem catTally_entry_count (ts : List ATxn) (e : Tally) (he : e ∈ catTally ts) :
    e.count = catCount e.cat ts := by
  have hfind := find?_of_mem_nodup (catTally ts) (catTally_cats_nodup ts) e he
  have h2 := tallyCount_catTally ts e.cat
  rw [tallyCount, hfind] at h2
  exact h2

/-- The boundary group from the spec: 10 transactions of one payee and
direction, 9 sharing category `c1`. -/
def boundaryGroup : List ATxn :=
  List.replicate 9
    { payee_name := some "Shop", category_id := some "c1",
      category_name := some "Groceries", amount := -10 } ++
  [{ payee_name := some "Shop", category_id := some "c2",
     category_name := some "Other", amount := -10 }]

/-- C8: for a (payee, direction) group of at least `minCount` members, a
suggestion for a real category is emitted exactly when
(category count / group size) × 100 reaches the threshold, with the
comparison inclusive; the spec's boundary instance (9 of 10 at
confidence 90) is included by `analyze` at threshold 90 and excluded at
threshold 90.1. -/
theorem confidence_threshold_inclusive :
    (∀ (threshold : ℚ) (minTx : Nat) (payee dir : String) (g : List ATxn) (c : String),
        minTx ≤ g.length → c ≠ "__uncategorized__" →
        ((∃ s ∈ groupSuggestions threshold payee dir g,
            s.category_id = c ∧
            s.confidence = (catCount c g : ℚ) / (g.length : ℚ) * 100) ↔
          (0 < catCount c g ∧
            threshold ≤ (catCount c g : ℚ) / (g.length : ℚ) * 100))) ∧
    (analyze 90 3 boundaryGroup).map (·.category_id) = ["c1"] ∧
    (analyze 90 3 boundaryGroup).map (·.confidence) = [90] ∧
    (analyze (90.1 : ℚ) 3 boundaryGroup).map (·.category_id) = [] := by
  refine ⟨?_, by decide, by decide, by decide⟩
  intro threshold minTx payee dir g c hmin hc
  constructor
  · rintro ⟨s, hs, hcat, hconf⟩
    rw [groupSuggestions, List.mem_filterMap] at hs
    obtain ⟨e, he, hfe⟩ := hs
    by_cases h1 : e.cat = "__uncategorized__"
    · simp [h1] at hfe
    · by_cases h2 : threshold ≤ (e.count : ℚ) / (g.length : ℚ) * 100
      · simp only [h1, if_false, h2, if_true, if_neg h1, if_pos h2] at hfe
        have hse := Option.some.inj hfe
        have hscat : s.category_id = e.cat := by rw [← hse]
        have hec : e.cat = c := hscat.symm.trans hcat
        have hcount : e.count = catCount c g := hec ▸ catTally_entry_count g e he
        refine ⟨?_, ?_⟩
        · rw [← hcount]
          exact catTally_count_pos g e he
        · rw [← hcount]
          exact h2
      · simp [h1, h2] at hfe
  · rintro ⟨hpos, hthr⟩
    have ht := tallyCount_catTally g c
    cases hf : (catTally g).find? (fun x => x.cat == c) with
    | none =>
      simp [tallyCount, hf] at ht
      omega
    | some e =>
      have hecat : e.cat = c := by simpa using List.find?_some hf
      have hemem : e ∈ catTally g := List.mem_of_find?_eq_some hf
      have hcount : e.count = catCount c g := by
        simp [tallyCount, hf] at ht
        exact ht
      refine ⟨{ payee_name := payee, category_id := e.cat, category_name := e.name,
                direction := dir, confidence := (e.count : ℚ) / (g.length : ℚ) * 100,
                transaction_count := e.count, total_for_payee := g.length,
                sample_transactions := e.txns.take 5 }, ?_, ?_, ?_⟩
      · rw [groupSuggestions, List.mem_filterMap]
        refine ⟨e, hemem, ?_⟩
        have h1 : ¬e.cat = "__uncategorized__" := hecat ▸ hc
        have h2 : threshold ≤ (e.count : ℚ) / (g.length : ℚ) * 100 := by
          rw [hcount]
          exact hthr
        simp [h1, h2]
      · exact hecat
      · rw [hcount]

/-- Witness for C8: the per-group characterization applied at the
boundary group for category `c1`. -/
theorem confidence_threshold_inclusive_witness :
    (∃ s ∈ groupSuggestions 90 "Shop" "outgoing" boundaryGroup,
        s.category_id = "c1" ∧
        s.confidence =
          (catCount "c1" boundaryGroup : ℚ) / (boundaryGroup.length : ℚ) * 100) ↔
      (0 < catCount "c1" boundaryGroup ∧
        (90 : ℚ) ≤ (catCount "c1" boundaryGroup : ℚ) / (boundaryGroup.length : ℚ) * 100) :=
  confidence_threshold_inclusive.1 90 3 "Shop" "outgoing" boundaryGroup "c1"
    (by decide) (by decide)

/-- C9: the row loop never aborts on a row it cannot interpret — a row
whose extraction raises is skipped (as is a row with no usable date) and
the remaining rows still produce their transactions; the result is
exactly the interpretable rows' transactions in order. -/
theorem parse_skips_unparseable_rows :
    (∀ rows : List Row,
        parseRows rows = rows.filterMap (fun r =>
          match parseRow r with
          | .ok (some t) => some t
          | _ => none)) ∧
    (∀ (r : Row) (rows : List Row) (e : String),
        parseRow r = .error e → parseRows (r :: rows) = parseRows rows) ∧
    (∀ (r : Row) (rows : List Row),
        parseRow r = .ok none → parseRows (r :: rows) = parseRows rows) := by
  refine ⟨?_, ?_, ?_⟩
  · intro rows
    induction rows with
    | nil => rfl
    | cons r rest ih =>
      cases h : parseRow r with
      | error e => simp [parseRows, h, ih]
      | ok o => cases o <;> simp [parseRows, h, ih]
  · intro r rows e h
    simp [parseRows, h]
  · intro r rows h
    simp [parseRows, h]

/-- Witness for C9: a row whose payee field is Python `None` raises
inside extraction and is skipped while the following good row is still
parsed. -/
theorem parse_skips_unparseable_rows_witness :
    parseRows
        [[("booking_date", some "15.03.2024"), ("payee", none)],
         [("booking_date", some "16.03.2024"), ("amount", some "5,00"),
          ("payee", some "SHOP")]] =
      parseRows
        [[("booking_date", some "16.03.2024"), ("amount", some "5,00"),
          ("payee", some "SHOP")]] :=
  parse_skips_unparseable_rows.2.1 _ _ "AttributeError" (by rfl)

/-- The transaction exercising C10: a payee of two spaces contains a
space, yet `str.split()` yields no tokens; the amount 5.5 is not a whole
number. -/
def spacePayeeTxn : Transaction :=
  { date := "2024-01-01", payee := "  ", amount := 11 / 2, memo := none,
    import_id := "x", original_date := "", original_amount := none,
    reference := none, archive_id := none }

/-- C10: for a transaction whose payee contains a space yet splits into
zero whitespace-separated tokens, with a non-whole amount, the suggested
draft rule carries no match predicates at all. -/
theorem whitespace_payee_draft_unconstrained :
    pyInStr " " spacePayeeTxn.payee = true ∧
    pyWords spacePayeeTxn.payee = [] ∧
    spacePayeeTxn.amount ≠ (pyInt spacePayeeTxn.amount : ℚ) ∧
    (suggestRule spacePayeeTxn "cat-id" "cat-name").payee_exact = none ∧
    (suggestRule spacePayeeTxn "cat-id" "cat-name").payee_contains = none ∧
    (suggestRule spacePayeeTxn "cat-id" "cat-name").amount_exact = none := by
  refine ⟨by decide, by decide, by decide, by decide, by decide, by decide⟩

end YnabImporter
